import Mathlib

/-!
Shallow embedding of the schema combinator library and validation engine of
`src/shared/api.ts` (a TypeScript JSON API contract layer).

JSON-compatible runtime values are modelled by `Value`, with an explicit
`vUndefined` constructor for JavaScript's `undefined` (the absent value).
Leaf validators produced by the `Schemas` combinators are defunctionalised
into the `SchemaField` inductive: each combinator call in the source becomes
one constructor carrying the combinator's captured arguments.  Validation
failures (thrown `Error`s in the source) are modelled by `Except String`,
carrying the exact error-message string the source builds.
-/

/-- Model of a JavaScript runtime value in the fragment the engine operates
on.  `vUndefined` is JavaScript's `undefined`; `vObj` is a plain object,
modelled as an ordered association list of own enumerable fields.  `vNative f`
models the host value produced by reading the property `f` that a plain object
inherits from `Object.prototype` (`toString`, `valueOf`, ...): an opaque
non-JSON value that is not `undefined`, fails every `typeof` test of the leaf
validators, and is neither a lodash plain object nor an array.  (For the
inherited methods, which are functions, this is exact; the `__proto__`
accessor is modelled by the same opaque value.) -/
inductive Value where
  | vUndefined
  | vNull
  | vBool (b : Bool)
  | vNum (n : Int)
  | vStr (s : String)
  | vArr (elems : List Value)
  | vObj (fields : List (String × Value))
  | vNative (name : String)

/-- The source's `keyConcat`: extend a dot-joined field path by one field
name; the root path is the empty string and gets no leading dot. -/
def keyConcat (k f : String) : String :=
  if k = "" then f else k ++ "." ++ f

/-- A `SchemaField` of the source: either a leaf validator produced by one of
the `Schemas` combinators (defunctionalised, one constructor per combinator),
or a nested object schema (`SchemaType`), an ordered mapping from field name
to `SchemaField`. -/
inductive SchemaField where
  | number
  | string (nonEmpty : Bool)
  | literal (l : String)
  | nulll
  | boolean (val : Option Bool)
  | optional (inner : SchemaField)
  | values (inner : SchemaField)
  | or (s1 s2 : SchemaField)
  | baseArray (inner : SchemaField)
  | array (inner : SchemaField)
  | obj (fields : List (String × SchemaField))

/-- Property names that every plain JavaScript object inherits from
`Object.prototype`.  The `in` operator and property reads consult the
prototype chain, so these names behave specially in the engine even when they
are not own properties. -/
def objectPrototypeKeys : List String :=
  ["constructor", "hasOwnProperty", "isPrototypeOf", "propertyIsEnumerable",
   "toLocaleString", "toString", "valueOf", "__proto__",
   "__defineGetter__", "__defineSetter__", "__lookupGetter__", "__lookupSetter__"]

/-- Own-property lookup on a plain object: the first binding of `f`, or
`undefined` when `f` is not an own key (ignoring the prototype chain). -/
def ownOrUndefined (entries : List (String × Value)) (f : String) : Value :=
  match entries.find? (fun e => e.1 = f) with
  | some e => e.2
  | none => .vUndefined

/-- JavaScript property read `obj[f]` on a plain object: the first own binding
of `f`; when `f` is not an own key, the member inherited from
`Object.prototype` if `f` names one, and `undefined` otherwise. -/
def lookupOrUndefined (entries : List (String × Value)) (f : String) : Value :=
  match entries.find? (fun e => e.1 = f) with
  | some e => e.2
  | none => if f ∈ objectPrototypeKeys then .vNative f else .vUndefined

/-- The `_.forOwn` loop of `API.validateSchema`: scan the input object's own
fields in order and return the first key `f` with `!(f in schema)`.  The `in`
operator consults the prototype chain, so a key is accepted when it is a
declared field name or a property name of `Object.prototype`. -/
def findExtraneous (declared : List String) : List (String × Value) → Option String
  | [] => none
  | (f, _) :: rest =>
      if f ∈ declared ∨ f ∈ objectPrototypeKeys then findExtraneous declared rest
      else some f

mutual

/-- The source's `API.validateSchemaField`, fused with the non-null branch of
`API.validateSchema`: dispatch on the schema.  A leaf validator (function in
the source) runs its combinator body with `validateSchemaField` itself as the
recursion callback; a nested object schema (plain object in the source) runs
the object branch of `validateSchema` (plain-object check, extraneous-field
scan, then `_.mapValues` over the declared fields). -/
def validateSchemaField : SchemaField → String → Value → Except String Value
  | .number, key, val =>
      match val with
      | .vNum n => .ok (.vNum n)
      | _ => .error ("Field " ++ key ++ " must be a number")
  | .string nonEmpty, key, val =>
      match val with
      | .vStr s =>
          if nonEmpty = true && s.length = 0 then
            .error ("Field " ++ key ++ " cannot be an empty string")
          else
            .ok (.vStr s)
      | _ => .error ("Field " ++ key ++ " must be a string")
  | .literal l, key, val =>
      match val with
      | .vStr s =>
          if s = l then .ok (.vStr l)
          else .error ("Field " ++ key ++ " must be " ++ l)
      | _ => .error ("Field " ++ key ++ " must be " ++ l)
  | .nulll, key, val =>
      match val with
      | .vNull => .ok .vNull
      | _ => .error ("Field " ++ key ++ " must be null")
  | .boolean opt, key, val =>
      match val with
      | .vBool b =>
          match opt with
          | some bv =>
              if b = bv then .ok (.vBool b)
              else .error ("Field " ++ key ++ " must be " ++ (if bv then "true" else "false"))
          | none => .ok (.vBool b)
      | _ => .error ("Field " ++ key ++ " must be a boolean")
  | .optional inner, key, val =>
      match val with
      | .vUndefined => .ok .vUndefined
      | v => validateSchemaField inner key v
  | .values inner, key, val =>
      match val with
      | .vObj entries => (validateValues inner key entries).map .vObj
      | _ => .error ("Field " ++ key ++ " must be an object")
  | .or s1 s2, key, val =>
      match validateSchemaField s1 key val with
      | .ok r => .ok r
      | .error _ => validateSchemaField s2 key val
  | .baseArray inner, key, val =>
      match val with
      | .vArr xs => (validateList inner key xs).map .vArr
      | _ => .error ("Field " ++ key ++ " must be an array")
  | .array inner, key, val =>
      match val with
      | .vArr xs => (validateList inner key xs).map .vArr
      | _ => .error ("Field " ++ key ++ " must be an array")
  | .obj fields, key, val =>
      match val with
      | .vObj entries =>
          match findExtraneous (fields.map Prod.fst) entries with
          | some f => .error ("Extraneous field " ++ f)
          | none => (validateFields fields key entries).map .vObj
      | _ => .error ("Object " ++ key ++ " must be an object")
termination_by s _ _ => ((sizeOf s : Nat), 0)
decreasing_by
  all_goals simp_wf
  all_goals (apply Prod.Lex.left; omega)

/-- The `_.mapValues` of `Schemas.values`: validate every entry's value with
the inner schema, path extended by the entry's key, keeping all keys. -/
def validateValues (inner : SchemaField) (key : String) :
    List (String × Value) → Except String (List (String × Value))
  | [] => .ok []
  | (k, v) :: rest => do
      let r ← validateSchemaField inner (keyConcat key k) v
      let rs ← validateValues inner key rest
      .ok ((k, r) :: rs)
termination_by entries => ((sizeOf inner : Nat), sizeOf entries)
decreasing_by
  all_goals simp_wf
  all_goals (apply Prod.Lex.right; omega)

/-- The `_.map` of `Schemas.array`/`Schemas.baseArray`: validate every element
with the inner schema, in order, at the array's own path. -/
def validateList (inner : SchemaField) (key : String) :
    List Value → Except String (List Value)
  | [] => .ok []
  | x :: xs => do
      let r ← validateSchemaField inner key x
      let rs ← validateList inner key xs
      .ok ((r :: rs))
termination_by xs => ((sizeOf inner : Nat), sizeOf xs)
decreasing_by
  all_goals simp_wf
  all_goals (apply Prod.Lex.right; omega)

/-- The `_.mapValues` of `API.validateSchema`: produce one output binding per
declared schema field, in declaration order, validating `obj[f]` (or
`undefined` when absent) at path extended by the field name. -/
def validateFields (fields : List (String × SchemaField)) (key : String)
    (entries : List (String × Value)) : Except String (List (String × Value)) :=
  match fields with
  | [] => .ok []
  | (f, s) :: rest => do
      let r ← validateSchemaField s (keyConcat key f) (lookupOrUndefined entries f)
      let rs ← validateFields rest key entries
      .ok ((f, r) :: rs)
termination_by ((sizeOf fields : Nat), 0)
decreasing_by
  all_goals simp_wf
  all_goals (apply Prod.Lex.left; omega)

end

/-- The source's `API.validateSchema` at the top level: a `null` schema (modelled by
`none`) accepts only loose-null (`null` or `undefined`) input, returning
`null`; otherwise defer to the object branch. -/
def validateSchema (schema : Option (List (String × SchemaField))) (obj : Value)
    (key : String) : Except String Value :=
  match schema with
  | none =>
      match obj with
      | .vNull => .ok .vNull
      | .vUndefined => .ok .vNull
      | _ => .error ("Object " ++ key ++ " must be null")
  | some fields => validateSchemaField (.obj fields) key obj

/-- Escape a string for its JSON text form (quote and backslash). -/
def escapeJson (s : String) : String :=
  s.foldl (fun acc c =>
    acc ++ (if c = '"' then "\\\"" else if c = '\\' then "\\\\" else String.singleton c)) ""

/-- Does `JSON.stringify` keep this value as an object field?  Fields bound to
`undefined` or to a function (an inherited native member) are omitted. -/
def isJsonFieldValue : Value → Bool
  | .vUndefined => false
  | .vNative _ => false
  | _ => true

mutual

/-- Model of the host `JSON.stringify` on engine values: `undefined`-valued
and function-valued object fields are dropped, `undefined` and function array
elements serialise as `null`. -/
def jsonStringify : Value → String
  | .vUndefined => ""
  | .vNull => "null"
  | .vBool b => if b then "true" else "false"
  | .vNum n => toString n
  | .vStr s => "\"" ++ escapeJson s ++ "\""
  | .vArr xs => "[" ++ jsonStringifyList xs ++ "]"
  | .vObj es => "\x7b" ++ jsonStringifyFields es ++ "\x7d"
  | .vNative _ => ""
termination_by v => sizeOf v
decreasing_by all_goals (simp_wf <;> omega)

def jsonStringifyList : List Value → String
  | [] => ""
  | [x] => (match x with | .vUndefined => "null" | .vNative _ => "null" | x => jsonStringify x)
  | x :: xs =>
      (match x with | .vUndefined => "null" | .vNative _ => "null" | x => jsonStringify x) ++
        "," ++ jsonStringifyList xs
termination_by xs => sizeOf xs
decreasing_by all_goals (simp_wf <;> omega)

def jsonStringifyFields : List (String × Value) → String
  | [] => ""
  | (f, v) :: rest =>
      if isJsonFieldValue v then
        "\"" ++ escapeJson f ++ "\":" ++ jsonStringify v ++
          (if rest.any (fun e => isJsonFieldValue e.2) then "," else "") ++
          jsonStringifyFields rest
      else jsonStringifyFields rest
termination_by es => sizeOf es
decreasing_by all_goals (simp_wf <;> omega)

end

/-- The `EmptyResponseValue` sentinel of the source. -/
def EmptyResponseValue : Value := .vObj [("isEmptyResponse", .vBool true)]

/-- The `emptySchema` of the source: pins `isEmptyResponse` to `true`. -/
def emptySchema : List (String × SchemaField) :=
  [("isEmptyResponse", .boolean (some true))]

/-- The `API` class of the source: a routing path bound to a request schema
and a response schema (each possibly `null`, modelled by `none`). -/
structure API where
  path : String
  requestSchema : Option (List (String × SchemaField))
  responseSchema : Option (List (String × SchemaField))

/-- The source's `API.reviveRequest`: an empty request text is replaced by the JSON text of
the empty-response sentinel; the text is then JSON-parsed (the host parser is
passed in as `jsonParse`) and validated against the request schema.  The
source's `console.error` on failure is pure logging; the failure itself is
rethrown unchanged. -/
def reviveRequest (jsonParse : String → Except String Value) (a : API)
    (request : String) : Except String Value :=
  let request := if request = "" then jsonStringify EmptyResponseValue else request
  match jsonParse request with
  | .ok v => validateSchema a.requestSchema v ""
  | .error e => .error e

/-- The source's `API.reviveResponse`: same as `reviveRequest`, against the response
schema. -/
def reviveResponse (jsonParse : String → Except String Value) (a : API)
    (response : String) : Except String Value :=
  let response := if response = "" then jsonStringify EmptyResponseValue else response
  match jsonParse response with
  | .ok v => validateSchema a.responseSchema v ""
  | .error e => .error e


/-- Well-formedness of a statically authored schema tree: every object level
declares pairwise-distinct field names (an object literal cannot declare the
same key twice), none of which collides with a property name inherited from
`Object.prototype` (for such a field name, `obj[f]` on an input omitting the
field yields the inherited member rather than `undefined`). -/
inductive SchemaWF : SchemaField → Prop where
  | number : SchemaWF .number
  | string (ne : Bool) : SchemaWF (.string ne)
  | literal (l : String) : SchemaWF (.literal l)
  | nulll : SchemaWF .nulll
  | boolean (o : Option Bool) : SchemaWF (.boolean o)
  | optional {t : SchemaField} : SchemaWF t → SchemaWF (.optional t)
  | values {t : SchemaField} : SchemaWF t → SchemaWF (.values t)
  | or {a b : SchemaField} : SchemaWF a → SchemaWF b → SchemaWF (.or a b)
  | baseArray {t : SchemaField} : SchemaWF t → SchemaWF (.baseArray t)
  | array {t : SchemaField} : SchemaWF t → SchemaWF (.array t)
  | obj {fields : List (String × SchemaField)} :
      (fields.map Prod.fst).Nodup →
      (∀ f ∈ fields.map Prod.fst, f ∉ objectPrototypeKeys) →
      (∀ p ∈ fields, SchemaWF p.2) →
      SchemaWF (.obj fields)

/-- Value `v` conforms structurally and by type to the schema `s`: the inductive
reading of "valid JSON-compatible value for this schema".  A union conforms
through its first alternative, or through its second when validation of the
first fails (the source tries the alternatives in that order).  An object
conforms, in any key order, when its own keys are distinct (as a JavaScript
object's are), every own key is a declared field name, every own value is
defined, and every declared field's own value (or `undefined` when the field
is absent) conforms to the field's schema. -/
inductive Conforms : SchemaField → Value → Prop where
  | number (n : Int) : Conforms .number (.vNum n)
  | string (ne : Bool) (s : String) :
      (ne = true → s.length ≠ 0) → Conforms (.string ne) (.vStr s)
  | literal (l : String) : Conforms (.literal l) (.vStr l)
  | nulll : Conforms .nulll .vNull
  | booleanAny (b : Bool) : Conforms (.boolean none) (.vBool b)
  | booleanVal (b : Bool) : Conforms (.boolean (some b)) (.vBool b)
  | optionalAbsent {t : SchemaField} : Conforms (.optional t) .vUndefined
  | optionalPresent {t : SchemaField} {v : Value} :
      v ≠ .vUndefined → Conforms t v → Conforms (.optional t) v
  | orLeft {a b : SchemaField} {v : Value} :
      Conforms a v → Conforms (.or a b) v
  | orRight {a b : SchemaField} {v : Value} :
      (∀ k, ∃ e, validateSchemaField a k v = .error e) →
      Conforms b v → Conforms (.or a b) v
  | valuesC {t : SchemaField} {es : List (String × Value)} :
      (∀ p ∈ es, p.2 ≠ Value.vUndefined) → (∀ p ∈ es, Conforms t p.2) →
      Conforms (.values t) (.vObj es)
  | baseArrayC {t : SchemaField} {xs : List Value} :
      (∀ x ∈ xs, Conforms t x) → Conforms (.baseArray t) (.vArr xs)
  | arrayC {t : SchemaField} {xs : List Value} :
      (∀ x ∈ xs, Conforms t x) → Conforms (.array t) (.vArr xs)
  | objC {fields : List (String × SchemaField)} {es : List (String × Value)} :
      (es.map Prod.fst).Nodup →
      (∀ p ∈ es, p.1 ∈ fields.map Prod.fst) →
      (∀ p ∈ es, p.2 ≠ Value.vUndefined) →
      (∀ p ∈ fields, Conforms p.2 (ownOrUndefined es p.1)) →
      Conforms (.obj fields) (.vObj es)

/-- Observational equality of engine values, the sense in which the engine's
output "is" its input: leaves must be equal, arrays agree elementwise, and
objects agree at every key under own-property lookup, where a key bound to
`undefined` and an absent key are identified — the two representations of an
absent optional field.  Key order and undefined-bound keys are exactly what a
consumer of the validated structure cannot rely on anyway. -/
inductive ObsEq : Value → Value → Prop where
  | undef : ObsEq .vUndefined .vUndefined
  | null : ObsEq .vNull .vNull
  | bool (b : Bool) : ObsEq (.vBool b) (.vBool b)
  | num (n : Int) : ObsEq (.vNum n) (.vNum n)
  | str (s : String) : ObsEq (.vStr s) (.vStr s)
  | native (f : String) : ObsEq (.vNative f) (.vNative f)
  | arr {xs ys : List Value} :
      List.Forall₂ ObsEq xs ys → ObsEq (.vArr xs) (.vArr ys)
  | obj {es1 es2 : List (String × Value)} :
      (∀ f, ownOrUndefined es1 f = .vUndefined ↔ ownOrUndefined es2 f = .vUndefined) →
      (∀ f, ownOrUndefined es1 f ≠ .vUndefined →
        ObsEq (ownOrUndefined es1 f) (ownOrUndefined es2 f)) →
      ObsEq (.vObj es1) (.vObj es2)

/-! ### Basic facts about the engine -/

/-- Combinator `optional` on a present (defined) value delegates to the inner schema. -/
lemma validate_optional_ne {t : SchemaField} {k : String} {v : Value}
    (h : v ≠ .vUndefined) :
    validateSchemaField (.optional t) k v = validateSchemaField t k v := by
  cases v
  · exact absurd rfl h
  all_goals simp [validateSchemaField]

/-- The defining case of the `or` combinator: try the first alternative,
falling back to the second on failure. -/
lemma validate_or_eq (s1 s2 : SchemaField) (k : String) (v : Value) :
    validateSchemaField (.or s1 s2) k v =
      match validateSchemaField s1 k v with
      | .ok r => .ok r
      | .error _ => validateSchemaField s2 k v := by
  simp [validateSchemaField]

/-- Combinator `baseArray` validates exactly as `array` does. -/
lemma validate_baseArray_eq_array (t : SchemaField) (k : String) (v : Value) :
    validateSchemaField (.baseArray t) k v = validateSchemaField (.array t) k v := by
  cases v <;> simp [validateSchemaField]

/-- An object schema whose extraneous scan finds an undeclared key fails with
that key's bare name, before any per-field validation. -/
lemma validate_obj_extraneous {fields : List (String × SchemaField)}
    {entries : List (String × Value)} {key f : String}
    (h : findExtraneous (fields.map Prod.fst) entries = some f) :
    validateSchemaField (.obj fields) key (.vObj entries) =
      .error ("Extraneous field " ++ f) := by
  simp [validateSchemaField, h]

/-- If some input key is neither declared nor inherited from
`Object.prototype`, the extraneous scan finds such a key. -/
lemma findExtraneous_of_exists {declared : List String}
    {entries : List (String × Value)}
    (h : ∃ p ∈ entries, p.1 ∉ declared ∧ p.1 ∉ objectPrototypeKeys) :
    ∃ f, f ∉ declared ∧ f ∉ objectPrototypeKeys ∧
      findExtraneous declared entries = some f := by
  induction entries with
  | nil => simp at h
  | cons p rest ih =>
      by_cases hp : p.1 ∈ declared ∨ p.1 ∈ objectPrototypeKeys
      · obtain ⟨q, hq, hqd⟩ := h
        rcases List.mem_cons.mp hq with hq1 | hq2
        · rw [hq1] at hqd
          rcases hp with hp | hp
          · exact absurd hp hqd.1
          · exact absurd hp hqd.2
        · obtain ⟨f, hf1, hf2, hfind⟩ := ih ⟨q, hq2, hqd⟩
          exact ⟨f, hf1, hf2, by simpa [findExtraneous, hp] using hfind⟩
      · push_neg at hp
        exact ⟨p.1, hp.1, hp.2, by simp [findExtraneous, hp.1, hp.2]⟩

/-- One successfully validated output binding per declared field: the output
object's keys are exactly the schema's declared keys, in declaration order. -/
lemma validateFields_keys {fields : List (String × SchemaField)} {key : String}
    {entries : List (String × Value)} {rs : List (String × Value)}
    (h : validateFields fields key entries = .ok rs) :
    rs.map Prod.fst = fields.map Prod.fst := by
  induction fields generalizing rs with
  | nil =>
      simp only [validateFields] at h
      injection h with h
      subst h
      rfl
  | cons p rest ih =>
      obtain ⟨f, s⟩ := p
      cases hr : validateSchemaField s (keyConcat key f) (lookupOrUndefined entries f) with
      | error e => simp [validateFields, bind, Except.bind, hr] at h
      | ok r =>
          cases hrs : validateFields rest key entries with
          | error e => simp [validateFields, bind, Except.bind, hr, hrs] at h
          | ok rs2 =>
              simp only [validateFields, bind, Except.bind, hr, hrs] at h
              injection h with h
              subst h
              simp [ih hrs]

/-- Validating a list of elements fails with the error of the first failing
element, whatever its position, and that error is the element's own failure at
the array's path. -/
lemma validateList_append_error {t : SchemaField} {key : String}
    {xs : List Value} {x : Value} {ys : List Value} {e : String}
    (hok : ∀ z ∈ xs, ∃ r, validateSchemaField t key z = .ok r)
    (hx : validateSchemaField t key x = .error e) :
    validateList t key (xs ++ x :: ys) = .error e := by
  induction xs with
  | nil => simp [validateList, bind, Except.bind, hx]
  | cons z zs ih =>
      obtain ⟨r, hr⟩ := hok z (by simp)
      have h2 := ih (fun w hw => hok w (by simp [hw]))
      simp [validateList, bind, Except.bind, hr, h2]

/-! ### Claims C1-C4 -/

/-- Claim C1, counterexample: for the schema
`\x7b name: string(\x7bnonEmpty:true\x7d), age: optional(number()) \x7d` and input
`\x7b"name":"Ann"\x7d`, validation succeeds but the output is NOT the object with
the single key `name`: the absent optional field `age` is present in the
output, bound to `undefined`. -/
theorem c1_refuted :
    validateSchemaField (.obj [("name", .string true), ("age", .optional .number)]) ""
        (.vObj [("name", .vStr "Ann")]) =
      .ok (.vObj [("name", .vStr "Ann"), ("age", .vUndefined)]) ∧
    validateSchemaField (.obj [("name", .string true), ("age", .optional .number)]) ""
        (.vObj [("name", .vStr "Ann")]) ≠
      .ok (.vObj [("name", .vStr "Ann")]) := by
  have h : validateSchemaField
      (.obj [("name", .string true), ("age", .optional .number)]) ""
      (.vObj [("name", .vStr "Ann")]) =
      .ok (.vObj [("name", .vStr "Ann"), ("age", .vUndefined)]) := by
    simp [validateSchemaField, validateFields, findExtraneous, lookupOrUndefined, keyConcat,
      bind, Except.bind, Except.map, objectPrototypeKeys] <;> rfl
  refine ⟨h, ?_⟩
  rw [h]
  simp

/-- Claim C1, amended: validating `\x7b"name":"Ann"\x7d` against
`\x7b name: string(\x7bnonEmpty:true\x7d), age: optional(number()) \x7d` succeeds, and the
output binds `name` to `"Ann"` and `age` to the `undefined` placeholder: an
absent optional field is kept as a key bound to `undefined` (the output of
`_.mapValues` has one binding per declared schema field), not omitted. -/
theorem c1_absent_optional_bound_to_undefined :
    validateSchemaField (.obj [("name", .string true), ("age", .optional .number)]) ""
        (.vObj [("name", .vStr "Ann")]) =
      .ok (.vObj [("name", .vStr "Ann"), ("age", .vUndefined)]) ∧
    ∀ (fields : List (String × SchemaField)) (key : String)
      (entries rs : List (String × Value)),
      validateFields fields key entries = .ok rs →
      rs.map Prod.fst = fields.map Prod.fst := by
  constructor
  · simp [validateSchemaField, validateFields, findExtraneous, lookupOrUndefined, keyConcat,
      bind, Except.bind, Except.map, objectPrototypeKeys] <;> rfl
  · intro fields key entries rs h
    exact validateFields_keys h

/-- Witness for C1's amended theorem: the single-field schema
`\x7b age: optional(number()) \x7d` on the empty object yields an output whose key
list is exactly the declared key list. -/
theorem c1_witness :
    validateFields [("age", SchemaField.optional .number)] "" [] =
      .ok [("age", Value.vUndefined)] ∧
    ([("age", Value.vUndefined)].map Prod.fst =
      [("age", SchemaField.optional SchemaField.number)].map Prod.fst) := by
  have h : validateFields [("age", SchemaField.optional .number)] "" [] =
      .ok [("age", Value.vUndefined)] := by
    simp [validateFields, validateSchemaField, lookupOrUndefined, keyConcat, bind, Except.bind, objectPrototypeKeys]
  exact ⟨h, c1_absent_optional_bound_to_undefined.2 _ "" [] _ h⟩

/-- Claim C2, counterexample: an extraneous-field failure inside a nested
object schema carries only the bare key name.  The message is identical under
two different ambient root paths, and differs from the message that would name
the fully qualified path `outer.bad`. -/
theorem c2_refuted :
    validateSchemaField (.obj [("outer", .obj [("a", .number)])]) "root"
        (.vObj [("outer", .vObj [("bad", .vNum 1)])]) =
      .error "Extraneous field bad" ∧
    validateSchemaField (.obj [("outer", .obj [("a", .number)])]) "other"
        (.vObj [("outer", .vObj [("bad", .vNum 1)])]) =
      .error "Extraneous field bad" ∧
    "Extraneous field bad" ≠ "Extraneous field " ++ keyConcat "outer" "bad" := by
  refine ⟨?_, ?_, by decide⟩ <;>
    simp [validateSchemaField, validateFields, findExtraneous, lookupOrUndefined, keyConcat,
      bind, Except.bind, Except.map, objectPrototypeKeys]

/-- Claim C2, amended: failures raised by leaf validators and shape checks are
annotated with the fully qualified dot-joined field path (e.g. a type failure
at nested field `a` of `outer` reports `outer.a`), but an extraneous-field
failure reports only the bare undeclared key name, with no path
qualification. -/
theorem c2_extraneous_path_unqualified :
    validateSchemaField (.obj [("outer", .obj [("a", .number)])]) ""
        (.vObj [("outer", .vObj [("a", .vStr "x")])]) =
      .error "Field outer.a must be a number" ∧
    ∀ (fields : List (String × SchemaField)) (entries : List (String × Value))
      (key f : String),
      findExtraneous (fields.map Prod.fst) entries = some f →
      validateSchemaField (.obj fields) key (.vObj entries) =
        .error ("Extraneous field " ++ f) := by
  constructor
  · simp [validateSchemaField, validateFields, findExtraneous, lookupOrUndefined, keyConcat,
      bind, Except.bind, Except.map, objectPrototypeKeys] <;> rfl
  · intro fields entries key f h
    exact validate_obj_extraneous h

/-- Witness for C2's amended theorem: the undeclared key `bad` under root path
`outer` produces the unqualified message. -/
theorem c2_witness :
    validateSchemaField (.obj [("a", SchemaField.number)]) "outer"
        (.vObj [("bad", .vNum 1)]) = .error ("Extraneous field " ++ "bad") := by
  exact c2_extraneous_path_unqualified.2 [("a", SchemaField.number)]
    [("bad", .vNum 1)] "outer" "bad" (by simp [findExtraneous, objectPrototypeKeys])

/-- Claim C3, counterexample: an input mapping with the undeclared key
`toString` does not fail: `"toString" in schema` is true via
`Object.prototype`, so the extraneous scan passes it, and validation of
`\x7b"toString":1\x7d` against `\x7b a: optional(number()) \x7d` succeeds outright. -/
theorem c3_refuted :
    validateSchemaField (.obj [("a", .optional .number)]) ""
        (.vObj [("toString", .vNum 1)]) = .ok (.vObj [("a", .vUndefined)]) ∧
    "toString" ∉ [("a", SchemaField.optional SchemaField.number)].map Prod.fst := by
  constructor
  · simp [validateSchemaField, validateFields, findExtraneous, lookupOrUndefined,
      objectPrototypeKeys, keyConcat, bind, Except.bind, Except.map] <;> rfl
  · simp

/-- Claim C3, amended: whenever the input object contains at least one key
that is neither declared by the object schema nor a property name of
`Object.prototype`, validation fails with an extraneous-field error; the
failure does not depend on the declared fields' validators at all (any schema
with the same declared key list fails identically), so it occurs before any
per-field validation.  Undeclared keys that coincide with `Object.prototype`
property names (`toString`, `valueOf`, ...) pass the `in`-based scan. -/
theorem c3_extraneous_field_aborts (fields : List (String × SchemaField))
    (entries : List (String × Value)) (key : String)
    (h : ∃ p ∈ entries, p.1 ∉ fields.map Prod.fst ∧ p.1 ∉ objectPrototypeKeys) :
    ∃ f, f ∉ fields.map Prod.fst ∧ f ∉ objectPrototypeKeys ∧
      validateSchemaField (.obj fields) key (.vObj entries) =
        .error ("Extraneous field " ++ f) ∧
      ∀ fields2 : List (String × SchemaField),
        fields2.map Prod.fst = fields.map Prod.fst →
        validateSchemaField (.obj fields2) key (.vObj entries) =
          .error ("Extraneous field " ++ f) := by
  obtain ⟨f, hf1, hf2, hfind⟩ := findExtraneous_of_exists h
  refine ⟨f, hf1, hf2, validate_obj_extraneous hfind, ?_⟩
  intro fields2 h2
  exact validate_obj_extraneous (h2 ▸ hfind)

/-- Witness for C3: input `\x7b a: "bad", extra: 1 \x7d` against schema
`\x7b a: number() \x7d` fails with the extraneous field `extra` even though the
declared field `a` would itself fail validation. -/
theorem c3_witness :
    ∃ f, f ∉ [("a", SchemaField.number)].map Prod.fst ∧ f ∉ objectPrototypeKeys ∧
      validateSchemaField (.obj [("a", SchemaField.number)]) ""
          (.vObj [("a", .vStr "bad"), ("extra", .vNum 1)]) =
        .error ("Extraneous field " ++ f) ∧
      ∀ fields2 : List (String × SchemaField),
        fields2.map Prod.fst = [("a", SchemaField.number)].map Prod.fst →
        validateSchemaField (.obj fields2) ""
            (.vObj [("a", .vStr "bad"), ("extra", .vNum 1)]) =
          .error ("Extraneous field " ++ f) := by
  exact c3_extraneous_field_aborts _ _ ""
    ⟨("extra", .vNum 1), by simp, by simp, by simp [objectPrototypeKeys]⟩

/-- Claim C4: `or(s1, s2)` succeeds with `s1`'s result when `s1` succeeds;
when `s1` fails it behaves exactly as `s2`, so it fails precisely when both
alternatives fail and then surfaces the second alternative's failure;
`or(string(), number())` accepts any numeric value via the second
alternative. -/
theorem c4_or_tries_in_order (s1 s2 : SchemaField) (key : String) (v : Value) :
    (∀ a, validateSchemaField s1 key v = .ok a →
      validateSchemaField (.or s1 s2) key v = .ok a) ∧
    (∀ e, validateSchemaField s1 key v = .error e →
      validateSchemaField (.or s1 s2) key v = validateSchemaField s2 key v) ∧
    (∀ e1 e2, validateSchemaField s1 key v = .error e1 →
      validateSchemaField s2 key v = .error e2 →
      validateSchemaField (.or s1 s2) key v = .error e2) ∧
    ((∃ e, validateSchemaField (.or s1 s2) key v = .error e) ↔
      ((∃ e, validateSchemaField s1 key v = .error e) ∧
       (∃ e, validateSchemaField s2 key v = .error e))) ∧
    (∀ n : Int, validateSchemaField (.or (.string false) .number) key (.vNum n) =
      .ok (.vNum n)) := by
  refine ⟨?_, ?_, ?_, ?_, ?_⟩
  · intro a h; rw [validate_or_eq, h]
  · intro e h; rw [validate_or_eq, h]
  · intro e1 e2 h1 h2; rw [validate_or_eq, h1, h2]
  · rw [validate_or_eq]
    cases h1 : validateSchemaField s1 key v with
    | ok r => simp
    | error e =>
        cases h2 : validateSchemaField s2 key v with
        | ok r => simp
        | error e2 => simp
  · intro n
    simp [validateSchemaField]

/-- Witness for C4: with both alternatives failing on `null`, the union
surfaces the second alternative's failure; and `or(string(), number())`
accepts the number 5. -/
theorem c4_witness :
    validateSchemaField (.or .number (.string false)) "k" .vNull =
      .error ("Field " ++ "k" ++ " must be a string") ∧
    validateSchemaField (.or (.string false) .number) "k" (.vNum 5) =
      .ok (.vNum 5) := by
  constructor
  · exact (c4_or_tries_in_order .number (.string false) "k" .vNull).2.2.1
      ("Field " ++ "k" ++ " must be a number") _
      (by simp [validateSchemaField]) (by simp [validateSchemaField])
  · exact (c4_or_tries_in_order (.string false) .number "k" (.vNum 5)).2.2.2.2 5

/-! ### Claims C6-C8 and C10 -/

/-- Claim C6: `optional(T)` succeeds with the absent result on an absent
(`undefined`) value, for every inner schema `T`; on any present value,
explicit `null` included, it delegates fully to `T`; in particular
`optional(number())` rejects `null` (with `number`'s type failure) but accepts
absence. -/
theorem c6_optional_absent_vs_null (t : SchemaField) (k : String) :
    validateSchemaField (.optional t) k .vUndefined = .ok .vUndefined ∧
    (∀ v, v ≠ .vUndefined →
      validateSchemaField (.optional t) k v = validateSchemaField t k v) ∧
    validateSchemaField (.optional .number) k .vNull =
      .error ("Field " ++ k ++ " must be a number") := by
  refine ⟨by simp [validateSchemaField], ?_, by simp [validateSchemaField]⟩
  intro v hv
  exact validate_optional_ne hv

/-- Witness for C6: `optional(number())` at field path `age` accepts absence,
delegates `null` to `number()` (rejecting it), and delegates the number 3 to
`number()` (accepting it). -/
theorem c6_witness :
    validateSchemaField (.optional .number) "age" .vUndefined = .ok .vUndefined ∧
    validateSchemaField (.optional .number) "age" .vNull =
      validateSchemaField .number "age" .vNull ∧
    validateSchemaField (.optional .number) "age" (.vNum 3) =
      validateSchemaField .number "age" (.vNum 3) := by
  refine ⟨(c6_optional_absent_vs_null .number "age").1, ?_, ?_⟩
  · exact (c6_optional_absent_vs_null .number "age").2.1 .vNull (by simp)
  · exact (c6_optional_absent_vs_null .number "age").2.1 (.vNum 3) (by simp)

/-- Claim C7: `array(T)` on any non-array fails with the must-be-an-array
shape error at the field's path; on `[a, b, c]` it validates the elements in
order, returning `[validate(T,a), validate(T,b), validate(T,c)]`, and it fails
with the first failing element's error, producing no result for later
elements; `baseArray` behaves identically. -/
theorem c7_array_elementwise_in_order (t : SchemaField) (key : String) :
    (∀ v, (∀ xs, v ≠ .vArr xs) →
      validateSchemaField (.array t) key v =
        .error ("Field " ++ key ++ " must be an array")) ∧
    (∀ a b c ra rb rc,
      validateSchemaField t key a = .ok ra →
      validateSchemaField t key b = .ok rb →
      validateSchemaField t key c = .ok rc →
      validateSchemaField (.array t) key (.vArr [a, b, c]) =
        .ok (.vArr [ra, rb, rc])) ∧
    (∀ a b c ra e,
      validateSchemaField t key a = .ok ra →
      validateSchemaField t key b = .error e →
      validateSchemaField (.array t) key (.vArr [a, b, c]) = .error e) ∧
    (∀ v, validateSchemaField (.baseArray t) key v =
      validateSchemaField (.array t) key v) := by
  refine ⟨?_, ?_, ?_, validate_baseArray_eq_array t key⟩
  · intro v hv
    cases v with
    | vArr xs => exact absurd rfl (hv xs)
    | vUndefined => simp [validateSchemaField]
    | vNull => simp [validateSchemaField]
    | vBool b => simp [validateSchemaField]
    | vNum n => simp [validateSchemaField]
    | vStr s => simp [validateSchemaField]
    | vObj es => simp [validateSchemaField]
    | vNative nm => simp [validateSchemaField]
  · intro a b c ra rb rc ha hb hc
    simp [validateSchemaField, validateList, bind, Except.bind, ha, hb, hc, Except.map]
  · intro a b c ra e ha hb
    simp [validateSchemaField, validateList, bind, Except.bind, ha, hb, Except.map]

/-- Witness for C7: `array(number())` rejects the string `"xs"`, maps
`[1, 2, 3]` elementwise, and stops at the failing middle element of
`[1, "x", 3]`. -/
theorem c7_witness :
    validateSchemaField (.array .number) "k" (.vStr "xs") =
      .error ("Field " ++ "k" ++ " must be an array") ∧
    validateSchemaField (.array .number) "k" (.vArr [.vNum 1, .vNum 2, .vNum 3]) =
      .ok (.vArr [.vNum 1, .vNum 2, .vNum 3]) ∧
    validateSchemaField (.array .number) "k" (.vArr [.vNum 1, .vStr "x", .vNum 3]) =
      .error ("Field " ++ "k" ++ " must be a number") := by
  refine ⟨?_, ?_, ?_⟩
  · exact (c7_array_elementwise_in_order .number "k").1 (.vStr "xs") (by simp)
  · exact (c7_array_elementwise_in_order .number "k").2.1 _ _ _ _ _ _
      (by simp [validateSchemaField]) (by simp [validateSchemaField])
      (by simp [validateSchemaField])
  · exact (c7_array_elementwise_in_order .number "k").2.2.1 (.vNum 1) (.vStr "x")
      (.vNum 3) (.vNum 1) ("Field " ++ "k" ++ " must be a number")
      (by simp [validateSchemaField]) (by simp [validateSchemaField])

/-- Claim C8: validating against a `null` schema succeeds, returning `null`,
exactly when the input is `null` or absent (`undefined`); any other input
fails with the must-be-null error at the current path. -/
theorem c8_null_schema_loose_null (v : Value) (k : String) :
    (validateSchema none v k = .ok .vNull ↔ (v = .vNull ∨ v = .vUndefined)) ∧
    (v ≠ .vNull → v ≠ .vUndefined →
      validateSchema none v k = .error ("Object " ++ k ++ " must be null")) := by
  cases v <;> simp [validateSchema]

/-- Witness for C8: at input `42`, the null schema fails with the must-be-null
error, and success-with-null is refuted. -/
theorem c8_witness :
    validateSchema none (.vNum 42) "k" = .error ("Object " ++ "k" ++ " must be null") ∧
    ¬ (validateSchema none (.vNum 42) "k" = .ok .vNull) := by
  constructor
  · exact (c8_null_schema_loose_null (.vNum 42) "k").2 (by simp) (by simp)
  · intro h
    rcases (c8_null_schema_loose_null (.vNum 42) "k").1.mp h with h1 | h1 <;> simp at h1

/-- Claim C10: when an element of an array fails validation, the reported
failure is exactly the inner schema's failure at the array field's own path:
no element index is appended, so the failing element's position (the prefix
`xs` and suffix `ys` around it) does not affect the error; `baseArray`
likewise. -/
theorem c10_array_error_path_has_no_index (t : SchemaField) (key : String)
    (xs ys : List Value) (x : Value) (e : String)
    (hok : ∀ z ∈ xs, ∃ r, validateSchemaField t key z = .ok r)
    (hx : validateSchemaField t key x = .error e) :
    validateSchemaField (.array t) key (.vArr (xs ++ x :: ys)) = .error e ∧
    validateSchemaField (.baseArray t) key (.vArr (xs ++ x :: ys)) = .error e := by
  have h : validateList t key (xs ++ x :: ys) = .error e :=
    validateList_append_error hok hx
  constructor <;> simp [validateSchemaField, h, Except.map]

/-- Witness for C10: the failing string element of `[7, "x"]` under field path
`nums` is reported at `nums` itself, with no index. -/
theorem c10_witness :
    validateSchemaField (.array .number) "nums"
        (.vArr ([.vNum 7] ++ .vStr "x" :: [])) =
      .error ("Field " ++ "nums" ++ " must be a number") ∧
    validateSchemaField (.baseArray .number) "nums"
        (.vArr ([.vNum 7] ++ .vStr "x" :: [])) =
      .error ("Field " ++ "nums" ++ " must be a number") := by
  exact c10_array_error_path_has_no_index .number "nums" [.vNum 7] [] (.vStr "x") _
    (by intro z hz; simp at hz; subst hz; exact ⟨.vNum 7, by simp [validateSchemaField]⟩)
    (by simp [validateSchemaField])

/-! ### Claim C5 -/

/-- The empty-response schema accepts the empty-response sentinel and returns
it. -/
lemma validate_emptySchema_sentinel :
    validateSchema (some emptySchema) EmptyResponseValue "" =
      .ok EmptyResponseValue := by
  simp [validateSchema, validateSchemaField, emptySchema, EmptyResponseValue,
    validateFields, findExtraneous, lookupOrUndefined, keyConcat, bind, Except.bind,
    Except.map, objectPrototypeKeys] <;> rfl

/-- Claim C5, counterexample: reviving the empty string does not fail for
every API whose schema differs from the empty-response schema.  The schema
`\x7b isEmptyResponse: boolean() \x7d` (no pinned value) is not the empty-response
schema, yet reviving the empty string against it succeeds, because the
substituted sentinel happens to conform to it. -/
theorem c5_refuted :
    (reviveRequest
        (fun t => if t = jsonStringify EmptyResponseValue
          then .ok EmptyResponseValue
          else .error "Unexpected end of JSON input")
        (API.mk "/api/x" (some [("isEmptyResponse", .boolean none)]) none) "" =
      .ok EmptyResponseValue) ∧
    (some [("isEmptyResponse", SchemaField.boolean none)] ≠ some emptySchema) := by
  constructor
  · simp [reviveRequest, validateSchema, validateSchemaField, validateFields,
      findExtraneous, lookupOrUndefined, keyConcat, bind, Except.bind, Except.map,
      EmptyResponseValue, objectPrototypeKeys] <;> rfl
  · simp [emptySchema]

/-- Claim C5, amended: `reviveRequest`/`reviveResponse` on the empty string
substitute the JSON text of the empty-response sentinel and validate the
parsed sentinel against the API's schema (assuming the host JSON parser
round-trips the sentinel's serialisation).  For an API whose schema is the
empty-response schema this succeeds and yields the sentinel; it fails exactly
when the schema rejects the sentinel value, which a schema other than the
empty-response schema need not do. -/
theorem c5_revive_empty_substitutes_sentinel
    (jsonParse : String → Except String Value)
    (hp : jsonParse (jsonStringify EmptyResponseValue) = .ok EmptyResponseValue)
    (a : API) :
    reviveRequest jsonParse a "" =
      validateSchema a.requestSchema EmptyResponseValue "" ∧
    reviveResponse jsonParse a "" =
      validateSchema a.responseSchema EmptyResponseValue "" ∧
    (a.requestSchema = some emptySchema →
      reviveRequest jsonParse a "" = .ok EmptyResponseValue) ∧
    (a.responseSchema = some emptySchema →
      reviveResponse jsonParse a "" = .ok EmptyResponseValue) ∧
    (∀ e, validateSchema a.requestSchema EmptyResponseValue "" = .error e →
      reviveRequest jsonParse a "" = .error e) ∧
    (∀ e, validateSchema a.responseSchema EmptyResponseValue "" = .error e →
      reviveResponse jsonParse a "" = .error e) := by
  have hreq : reviveRequest jsonParse a "" =
      validateSchema a.requestSchema EmptyResponseValue "" := by
    simp [reviveRequest, hp]
  have hres : reviveResponse jsonParse a "" =
      validateSchema a.responseSchema EmptyResponseValue "" := by
    simp [reviveResponse, hp]
  refine ⟨hreq, hres, ?_, ?_, ?_, ?_⟩
  · intro h; rw [hreq, h]; exact validate_emptySchema_sentinel
  · intro h; rw [hres, h]; exact validate_emptySchema_sentinel
  · intro e h; rw [hreq, h]
  · intro e h; rw [hres, h]

/-- Witness for C5's amended theorem: a parser recognising exactly the
sentinel's JSON text revives the empty string, for an API using the
empty-response schema for both sides, into the sentinel value; against the
`null` response schema the revival fails. -/
theorem c5_witness :
    reviveRequest
        (fun t => if t = jsonStringify EmptyResponseValue
          then .ok EmptyResponseValue
          else .error "Unexpected end of JSON input")
        (API.mk "/api/x" (some emptySchema) none) "" = .ok EmptyResponseValue ∧
    reviveResponse
        (fun t => if t = jsonStringify EmptyResponseValue
          then .ok EmptyResponseValue
          else .error "Unexpected end of JSON input")
        (API.mk "/api/x" (some emptySchema) none) "" =
      .error ("Object " ++ "" ++ " must be null") := by
  have hp : (fun t => if t = jsonStringify EmptyResponseValue
        then Except.ok EmptyResponseValue
        else Except.error "Unexpected end of JSON input")
      (jsonStringify EmptyResponseValue) = .ok EmptyResponseValue := by simp
  constructor
  · exact (c5_revive_empty_substitutes_sentinel _ hp
      (API.mk "/api/x" (some emptySchema) none)).2.2.1 rfl
  · exact (c5_revive_empty_substitutes_sentinel _ hp
      (API.mk "/api/x" (some emptySchema) none)).2.2.2.2.2 _
      (by simp [validateSchema, EmptyResponseValue])


/-! ### Toward C9: conforming values validate to observably equal values -/

/-- Own lookup finds the head binding. -/
lemma ownOrUndefined_cons_self {f : String} {v : Value} {es : List (String × Value)} :
    ownOrUndefined ((f, v) :: es) f = v := by
  simp [ownOrUndefined, List.find?]

/-- Own lookup skips a head entry with a different key. -/
lemma ownOrUndefined_cons_ne {f g : String} {v : Value} {es : List (String × Value)}
    (h : g ≠ f) :
    ownOrUndefined ((f, v) :: es) g = ownOrUndefined es g := by
  simp [ownOrUndefined, List.find?, Ne.symm h]

/-- Own lookup of a key that is not among the entries' keys is `undefined`. -/
lemma ownOrUndefined_not_mem {f : String} {es : List (String × Value)}
    (h : f ∉ es.map Prod.fst) :
    ownOrUndefined es f = .vUndefined := by
  induction es with
  | nil => rfl
  | cons p rest ih =>
      obtain ⟨g, v⟩ := p
      simp only [List.map_cons, List.mem_cons] at h
      push_neg at h
      rw [ownOrUndefined_cons_ne h.1]
      exact ih h.2

/-- For a key that `Object.prototype` does not provide, the source's property
read coincides with own lookup. -/
lemma lookupOrUndefined_eq_own {f : String} {es : List (String × Value)}
    (h : f ∉ objectPrototypeKeys) :
    lookupOrUndefined es f = ownOrUndefined es f := by
  unfold lookupOrUndefined ownOrUndefined
  cases es.find? (fun e => e.1 = f) <;> simp [h]

/-- Observationally equal values are `undefined` together. -/
lemma obsEq_undefined_iff {a b : Value} (h : ObsEq a b) :
    a = .vUndefined ↔ b = .vUndefined := by
  cases h <;> simp

/-- The extraneous scan passes when every own input key is declared. -/
lemma findExtraneous_none_of_subset {declared : List String}
    {entries : List (String × Value)}
    (h : ∀ p ∈ entries, p.1 ∈ declared) :
    findExtraneous declared entries = none := by
  induction entries with
  | nil => simp [findExtraneous]
  | cons p rest ih =>
      obtain ⟨f, v⟩ := p
      have hf : f ∈ declared := h (f, v) (by simp)
      simp [findExtraneous, hf]
      exact ih (fun q hq => h q (by simp [hq]))

/-- Stepping lemma for object schemas: when each declared field's validator
succeeds on the property read with a result observably equal to the own
value, the `_.mapValues` pass succeeds, and the output object observes like
the input at every key. -/
lemma validateFields_pointwise {fields : List (String × SchemaField)}
    {key : String} {es : List (String × Value)}
    (hnd : (fields.map Prod.fst).Nodup)
    (H : ∀ p ∈ fields, ∃ r,
      validateSchemaField p.2 (keyConcat key p.1) (lookupOrUndefined es p.1) = .ok r ∧
      ObsEq r (ownOrUndefined es p.1)) :
    ∃ rs, validateFields fields key es = .ok rs ∧
      (∀ f ∈ fields.map Prod.fst, ObsEq (ownOrUndefined rs f) (ownOrUndefined es f)) ∧
      (∀ f, f ∉ fields.map Prod.fst → ownOrUndefined rs f = .vUndefined) := by
  induction fields with
  | nil =>
      exact ⟨[], by simp [validateFields], by simp, fun f _ => rfl⟩
  | cons p rest ih =>
      obtain ⟨f0, s0⟩ := p
      simp only [List.map_cons, List.nodup_cons] at hnd
      obtain ⟨r0, hr0, ho0⟩ := H (f0, s0) (by simp)
      obtain ⟨rs, hrs, hmem, hnmem⟩ := ih hnd.2 (fun q hq => H q (by simp [hq]))
      refine ⟨(f0, r0) :: rs, ?_, ?_, ?_⟩
      · simp [validateFields, bind, Except.bind, hr0, hrs]
      · intro f hf
        simp only [List.map_cons, List.mem_cons] at hf
        rcases hf with rfl | hf2
        · rw [ownOrUndefined_cons_self]
          exact ho0
        · have hne : f ≠ f0 := fun hh => hnd.1 (hh ▸ hf2)
          rw [ownOrUndefined_cons_ne hne]
          exact hmem f hf2
      · intro f hf
        simp only [List.map_cons, List.mem_cons] at hf
        push_neg at hf
        rw [ownOrUndefined_cons_ne hf.1]
        exact hnmem f hf.2

/-- Stepping lemma for `values`: when every entry's value validates to an
observably equal result, the entrywise map succeeds and the output object
observes like the input at every key. -/
lemma validateValues_pointwise {t : SchemaField} {key : String}
    {es : List (String × Value)}
    (H : ∀ p ∈ es, ∃ r,
      validateSchemaField t (keyConcat key p.1) p.2 = .ok r ∧ ObsEq r p.2) :
    ∃ rs, validateValues t key es = .ok rs ∧
      (∀ f, ownOrUndefined rs f = .vUndefined ↔ ownOrUndefined es f = .vUndefined) ∧
      (∀ f, ownOrUndefined rs f ≠ .vUndefined →
        ObsEq (ownOrUndefined rs f) (ownOrUndefined es f)) := by
  induction es with
  | nil =>
      exact ⟨[], by simp [validateValues], fun f => Iff.rfl, fun f hf => absurd rfl hf⟩
  | cons p rest ih =>
      obtain ⟨f0, v0⟩ := p
      obtain ⟨r0, hr0, ho0⟩ := H (f0, v0) (by simp)
      obtain ⟨rs, hrs, hiff, hobs⟩ := ih (fun q hq => H q (by simp [hq]))
      refine ⟨(f0, r0) :: rs, ?_, ?_, ?_⟩
      · simp [validateValues, bind, Except.bind, hr0, hrs]
      · intro f
        by_cases hf : f = f0
        · subst hf
          rw [ownOrUndefined_cons_self, ownOrUndefined_cons_self]
          exact obsEq_undefined_iff ho0
        · rw [ownOrUndefined_cons_ne hf, ownOrUndefined_cons_ne hf]
          exact hiff f
      · intro f hf
        by_cases hf0 : f = f0
        · subst hf0
          rw [ownOrUndefined_cons_self] at hf
          rw [ownOrUndefined_cons_self, ownOrUndefined_cons_self]
          exact ho0
        · rw [ownOrUndefined_cons_ne hf0] at hf
          rw [ownOrUndefined_cons_ne hf0, ownOrUndefined_cons_ne hf0]
          exact hobs f hf

/-- Stepping lemma for arrays: when every element validates to an observably
equal result, the elementwise map succeeds with pointwise observably equal
output. -/
lemma validateList_pointwise {t : SchemaField} {key : String} {xs : List Value}
    (H : ∀ x ∈ xs, ∃ r, validateSchemaField t key x = .ok r ∧ ObsEq r x) :
    ∃ rs, validateList t key xs = .ok rs ∧ List.Forall₂ ObsEq rs xs := by
  induction xs with
  | nil => exact ⟨[], by simp [validateList], List.Forall₂.nil⟩
  | cons x rest ih =>
      obtain ⟨r, hr, ho⟩ := H x (by simp)
      obtain ⟨rs, hrs, hall⟩ := ih (fun y hy => H y (by simp [hy]))
      exact ⟨r :: rs, by simp [validateList, bind, Except.bind, hr, hrs],
        List.Forall₂.cons ho hall⟩

/-- Main induction (on a size bound) behind C9: a well-formed schema applied
to a conforming value succeeds, with an observably equal result. -/
lemma conforms_validate_aux :
    ∀ n : Nat, ∀ s : SchemaField, sizeOf s ≤ n → SchemaWF s →
      ∀ (v : Value) (k : String), Conforms s v →
        ∃ r, validateSchemaField s k v = .ok r ∧ ObsEq r v := by
  intro n
  induction n with
  | zero =>
      intro s hs
      exfalso
      cases s <;> simp at hs
  | succ n ih =>
      intro s hs hwf v k hc
      cases s with
      | number =>
          cases hc with
          | number m => exact ⟨.vNum m, by simp [validateSchemaField], ObsEq.num m⟩
      | string ne =>
          cases hc with
          | string _ s2 hne =>
              refine ⟨.vStr s2, ?_, ObsEq.str s2⟩
              cases ne with
              | false => simp [validateSchemaField]
              | true => simp [validateSchemaField, hne rfl]
      | literal l =>
          cases hc with
          | literal => exact ⟨.vStr l, by simp [validateSchemaField], ObsEq.str l⟩
      | nulll =>
          cases hc with
          | nulll => exact ⟨.vNull, by simp [validateSchemaField], ObsEq.null⟩
      | boolean o =>
          cases hc with
          | booleanAny b => exact ⟨.vBool b, by simp [validateSchemaField], ObsEq.bool b⟩
          | booleanVal b => exact ⟨.vBool b, by simp [validateSchemaField], ObsEq.bool b⟩
      | optional t =>
          cases hwf with
          | optional hwt =>
              have hst : sizeOf t ≤ n := by simp at hs; omega
              cases hc with
              | optionalAbsent =>
                  exact ⟨.vUndefined, by simp [validateSchemaField], ObsEq.undef⟩
              | optionalPresent hv hct =>
                  obtain ⟨r, hr, ho⟩ := ih t hst hwt v k hct
                  exact ⟨r, by rw [validate_optional_ne hv]; exact hr, ho⟩
      | values t =>
          cases hwf with
          | values hwt =>
              have hst : sizeOf t ≤ n := by simp at hs; omega
              cases hc with
              | valuesC hund hconf =>
                  obtain ⟨rs, hrs, hiff, hobs⟩ := validateValues_pointwise
                    (fun p hp => ih t hst hwt p.2 (keyConcat k p.1) (hconf p hp))
                  exact ⟨.vObj rs, by simp [validateSchemaField, hrs, Except.map],
                    ObsEq.obj hiff hobs⟩
      | or a b =>
          cases hwf with
          | or hwa hwb =>
              have hsa : sizeOf a ≤ n := by simp at hs; omega
              have hsb : sizeOf b ≤ n := by simp at hs; omega
              cases hc with
              | orLeft hca =>
                  obtain ⟨r, hr, ho⟩ := ih a hsa hwa v k hca
                  exact ⟨r, by rw [validate_or_eq, hr], ho⟩
              | orRight hfail hcb =>
                  obtain ⟨e, he⟩ := hfail k
                  obtain ⟨r, hr, ho⟩ := ih b hsb hwb v k hcb
                  exact ⟨r, by rw [validate_or_eq, he]; exact hr, ho⟩
      | baseArray t =>
          cases hwf with
          | baseArray hwt =>
              have hst : sizeOf t ≤ n := by simp at hs; omega
              cases hc with
              | baseArrayC hconf =>
                  obtain ⟨rs, hrs, hall⟩ := validateList_pointwise
                    (fun x hx => ih t hst hwt x k (hconf x hx))
                  exact ⟨.vArr rs, by simp [validateSchemaField, hrs, Except.map],
                    ObsEq.arr hall⟩
      | array t =>
          cases hwf with
          | array hwt =>
              have hst : sizeOf t ≤ n := by simp at hs; omega
              cases hc with
              | arrayC hconf =>
                  obtain ⟨rs, hrs, hall⟩ := validateList_pointwise
                    (fun x hx => ih t hst hwt x k (hconf x hx))
                  exact ⟨.vArr rs, by simp [validateSchemaField, hrs, Except.map],
                    ObsEq.arr hall⟩
      | obj fields =>
          cases hwf with
          | obj hnd hproto hwfall =>
              cases hc with
              | objC hndes hsub hdefined hcf =>
                  rename_i es
                  have H : ∀ p ∈ fields, ∃ r,
                      validateSchemaField p.2 (keyConcat k p.1)
                        (lookupOrUndefined es p.1) = .ok r ∧
                      ObsEq r (ownOrUndefined es p.1) := by
                    intro p hp
                    have hps : sizeOf p.2 ≤ n := by
                      have h1 : sizeOf p < sizeOf fields := List.sizeOf_lt_of_mem hp
                      have h2 : sizeOf p.2 < sizeOf p := by
                        obtain ⟨pf, ps⟩ := p
                        simp
                      have h3 : sizeOf fields < sizeOf (SchemaField.obj fields) := by
                        simp
                      omega
                    have hlk : lookupOrUndefined es p.1 = ownOrUndefined es p.1 :=
                      lookupOrUndefined_eq_own
                        (hproto p.1 (List.mem_map_of_mem Prod.fst hp))
                    rw [hlk]
                    exact ih p.2 hps (hwfall p hp) (ownOrUndefined es p.1)
                      (keyConcat k p.1) (hcf p hp)
                  obtain ⟨rs, hrs, hmem, hnmem⟩ := validateFields_pointwise hnd H
                  have hext : findExtraneous (fields.map Prod.fst) es = none :=
                    findExtraneous_none_of_subset hsub
                  refine ⟨.vObj rs, by simp [validateSchemaField, hext, hrs, Except.map],
                    ObsEq.obj ?_ ?_⟩
                  · intro f
                    by_cases hf : f ∈ fields.map Prod.fst
                    · exact obsEq_undefined_iff (hmem f hf)
                    · have h1 : ownOrUndefined rs f = .vUndefined := hnmem f hf
                      have h2 : ownOrUndefined es f = .vUndefined := by
                        apply ownOrUndefined_not_mem
                        intro hfes
                        obtain ⟨q, hq, rfl⟩ := List.mem_map.mp hfes
                        exact hf (hsub q hq)
                      rw [h1, h2]
                  · intro f hf
                    by_cases hfd : f ∈ fields.map Prod.fst
                    · exact hmem f hfd
                    · exact absurd (hnmem f hfd) hf

/-- Claim C9, counterexample: the input `\x7b\x7d` conforms structurally and by type
to the schema `\x7b toString: optional(number()) \x7d` (the optional field is
absent), but validation fails: `obj["toString"]` on the empty object yields
the member inherited from `Object.prototype`, not `undefined`, so `optional`
delegates it to `number()`, which rejects it. -/
theorem c9_refuted :
    Conforms (.obj [("toString", .optional .number)]) (.vObj []) ∧
    validateSchemaField (.obj [("toString", .optional .number)]) "" (.vObj []) =
      .error ("Field " ++ "toString" ++ " must be a number") := by
  constructor
  · refine Conforms.objC (by simp) (by simp) (by simp) ?_
    intro p hp
    simp only [List.mem_singleton] at hp
    subst hp
    exact show Conforms (.optional .number) Value.vUndefined from Conforms.optionalAbsent
  · simp [validateSchemaField, validateFields, findExtraneous, lookupOrUndefined,
      objectPrototypeKeys, keyConcat, bind, Except.bind, Except.map] <;> rfl

/-- Claim C9, amended: for every well-formed schema built from the combinators
and nested object schemas — distinct declared field names, none colliding with
an `Object.prototype` property name; the `date()` coercion is excluded from
the model — and every value that conforms structurally and by type to it, in
any object key order, validation succeeds and returns a value observably equal
to the input: equal at every key, identifying a key bound to `undefined` with
an absent key (the two representations of an absent optional field).  Without
the `Object.prototype` proviso the claim fails, because for an absent declared
field named like an inherited member the property read hands that member to
the field validator. -/
theorem c9_conforming_value_validates_to_itself (s : SchemaField) (v : Value)
    (k : String) (hwf : SchemaWF s) (hc : Conforms s v) :
    ∃ r, validateSchemaField s k v = .ok r ∧ ObsEq r v :=
  conforms_validate_aux (sizeOf s) s le_rfl hwf v k hc

/-- Witness for C9: the schema
`\x7b name: string(\x7bnonEmpty:true\x7d), age: optional(number()) \x7d` is well formed,
the key-permuted input `\x7b"age":30,"name":"Ann"\x7d` conforms to it, and
validation succeeds with an observably equal output. -/
theorem c9_witness :
    SchemaWF (.obj [("name", .string true), ("age", .optional .number)]) ∧
    Conforms (.obj [("name", .string true), ("age", .optional .number)])
      (.vObj [("age", .vNum 30), ("name", .vStr "Ann")]) ∧
    ∃ r, validateSchemaField
        (.obj [("name", .string true), ("age", .optional .number)]) ""
        (.vObj [("age", .vNum 30), ("name", .vStr "Ann")]) = .ok r ∧
      ObsEq r (.vObj [("age", .vNum 30), ("name", .vStr "Ann")]) := by
  have hwf : SchemaWF (.obj [("name", .string true), ("age", .optional .number)]) := by
    refine SchemaWF.obj (by simp) (by decide) ?_
    intro p hp
    simp only [List.mem_cons, List.mem_singleton, List.not_mem_nil, or_false] at hp
    rcases hp with rfl | rfl
    · exact SchemaWF.string true
    · exact SchemaWF.optional SchemaWF.number
  have hc : Conforms (.obj [("name", .string true), ("age", .optional .number)])
      (.vObj [("age", .vNum 30), ("name", .vStr "Ann")]) := by
    refine Conforms.objC (by simp) (by simp) (by simp) ?_
    intro p hp
    simp only [List.mem_cons, List.mem_singleton, List.not_mem_nil, or_false] at hp
    rcases hp with rfl | rfl
    · exact show Conforms (.string true) (.vStr "Ann") from
        Conforms.string true "Ann" (by intro _; decide)
    · exact show Conforms (.optional .number) (.vNum 30) from
        Conforms.optionalPresent (by simp) (Conforms.number 30)
  exact ⟨hwf, hc, c9_conforming_value_validates_to_itself _ _ "" hwf hc⟩
